import Mathlib

/-!
# Verification of the `ghost` entity loader (`internal/entity`)

Shallow embedding of the Go package `internal/entity`:
`entity_ruleset.go` (ruleset parsing/validation and ruleset-parameter
equivalence) and `repository.go` (the two-phase repository directory
reader with ownership inference and collision detection).

Modelling conventions:
* Go strings are Lean `String` (test inputs are ASCII, so byte indexing
  in Go coincides with character indexing here).
* Go `error` values are `String` messages built exactly as the
  `fmt.Errorf` format strings build them; `Warning` is also a message.
* Go maps `map[string]*T` are functions `String → Option T`; a Go `nil`
  map is distinguished from an empty map by wrapping results in `Option`.
* The filesystem abstraction (`utils.Exists`, `fs.ReadDir`) is modelled
  by a `DirState` value: the directory is absent, its existence check
  fails, its enumeration fails, or it enumerates to a concrete listing.
* File contents are not modelled byte-for-byte: `yaml.Unmarshal` and
  `utils.ReadFile` are external to the package, so each file node in a
  listing carries the outcome of parsing it (an `Except`), and — for
  repository files, whose `Validate` consults the external `teams` /
  `externalUsers` tables and `utils.GithubAnsiString` — the outcome of
  validating it (`Option` error).  Ruleset validation is pure code of
  `entity_ruleset.go` and is embedded in full.
-/

namespace Ghost

/-! ## Path helpers (models of Go `path/filepath` on clean relative paths) -/

/-- Go `name[0] == '.'` on a directory-entry name (entry names are
never empty): the first character is a dot. -/
def startsWithDot (s : String) : Bool :=
  match s.data with
  | [] => false
  | c :: _ => c = '.'

/-- Go `strings.HasSuffix(s, ".yaml")`. -/
def hasYamlSuffix (s : String) : Bool :=
  ".yaml".data.isSuffixOf s.data

/-- Go `s[0]` on a string already known to be non-empty. -/
def headChar (s : String) : Char :=
  match s.data with
  | [] => 'A'
  | c :: _ => c

/-- Model of Go `filepath.Ext`: the suffix beginning at the final dot,
or `""` when there is no dot. -/
def filepathExt (s : String) : String :=
  let rev := s.data.reverse
  let pre := rev.takeWhile (fun c => c ≠ '.')
  if pre.length = rev.length then "" else ⟨'.' :: pre.reverse⟩

/-- Splitting a character list on a separator character
(the model of Go's path-component splitting). -/
def splitOnChar : List Char → Char → List (List Char)
  | [], _ => [[]]
  | c :: rest, sep =>
    if c = sep then
      [] :: splitOnChar rest sep
    else
      match splitOnChar rest sep with
      | [] => [[c]]
      | g :: gs => (c :: g) :: gs

/-- Model of Go `filepath.Base` on the clean relative paths the loader
builds: the last non-empty slash-separated component. -/
def filepathBase (s : String) : String :=
  match ((splitOnChar s.data '/').filter (fun c => c ≠ [])).getLast? with
  | some p => ⟨p⟩
  | none => if s = "" then "." else "/"

/-- Model of Go `filepath.Join` on clean non-empty components. -/
def joinPath (a b : String) : String :=
  if a = "" then b else if b = "" then a else a ++ "/" ++ b

/-- Go `filename[:len(filename)-len(filepath.Ext(filename))]`:
the base name with its extension stripped. -/
def stemOf (s : String) : String :=
  ⟨s.data.take (s.data.length - (filepathExt s).data.length)⟩

/-! ## Ruleset data model (`entity_ruleset.go`) -/

/-- `RuleSetParameters` of `entity_ruleset.go`. -/
structure RuleSetParameters where
  dismissStaleReviewsOnPush : Bool
  requireCodeOwnerReview : Bool
  requiredApprovingReviewCount : Int
  requiredReviewThreadResolution : Bool
  requireLastPushApproval : Bool
  requiredStatusChecks : List String
  strictRequiredStatusChecksPolicy : Bool
deriving DecidableEq, Repr

/-- Modelled from the spec: the helper `StringArrayEquivalent` lives in
the `utils` package, which is not under `src/`; only its caller is.
Per the spec (§4.4) it reports whether two status-check name lists are
equivalent as sets (regardless of order), together with the symmetric
difference for diagnostic use (names only on the right, names only on
the left). -/
def StringArrayEquivalent (l r : List String) : Bool × List String × List String :=
  (l.all (fun x => r.contains x) && r.all (fun x => l.contains x),
   r.filter (fun x => !(l.contains x)),
   l.filter (fun x => !(r.contains x)))

/-- `CompareRulesetParameters` of `entity_ruleset.go` (lines 25-56):
dispatch on the rule type string, early-`false` on the first mismatch,
`false` for an unrecognized rule type. -/
def CompareRulesetParameters (ruletype : String) (left right : RuleSetParameters) : Bool :=
  if ruletype = "required_signatures" then
    true
  else if ruletype = "pull_request" then
    if left.dismissStaleReviewsOnPush ≠ right.dismissStaleReviewsOnPush then false
    else if left.requireCodeOwnerReview ≠ right.requireCodeOwnerReview then false
    else if left.requiredApprovingReviewCount ≠ right.requiredApprovingReviewCount then false
    else if left.requiredReviewThreadResolution ≠ right.requiredReviewThreadResolution then false
    else if left.requireLastPushApproval ≠ right.requireLastPushApproval then false
    else true
  else if ruletype = "required_status_checks" then
    if (StringArrayEquivalent left.requiredStatusChecks right.requiredStatusChecks).1 = false then false
    else if left.strictRequiredStatusChecksPolicy ≠ right.strictRequiredStatusChecksPolicy then false
    else true
  else
    false

/-- An entry of `RuleSetDefinition.BypassApps`. -/
structure BypassApp where
  appName : String
  mode : String
deriving DecidableEq, Repr

/-- An entry of `RuleSetDefinition.Rules`. -/
structure RuleSetRule where
  ruletype : String
  parameters : RuleSetParameters
deriving DecidableEq, Repr

/-- `RuleSetDefinition` of `entity_ruleset.go`. -/
structure RuleSetDefinition where
  enforcement : String
  bypassApps : List BypassApp
  onInclude : List String
  onExclude : List String
  rules : List RuleSetRule
deriving DecidableEq, Repr

/-- `RuleSet` = embedded `Entity` header + spec. -/
structure RuleSet where
  apiVersion : String
  kind : String
  name : String
  spec : RuleSetDefinition
deriving DecidableEq, Repr

/-! ## Ruleset validation (`RuleSet.Validate`, lines 154-195)

Go `on[0]` is a byte index that panics on an empty string, so the
embedded validator's result type has an explicit `panic` outcome. -/

/-- Outcome of `RuleSet.Validate`: normal success, a returned error, or
a runtime panic (out-of-range string index). -/
inductive ValidateResult where
  | ok
  | fail (msg : String)
  | panic
deriving DecidableEq, Repr

/-- The `for _, rule := range r.Spec.Rules` check: first invalid rule
type yields the error (note the source's "rulettype" spelling). -/
def firstRuletypeError : List RuleSetRule → String → Option String
  | [], _ => none
  | rule :: rest, base =>
    if rule.ruletype ≠ "required_signatures" ∧ rule.ruletype ≠ "pull_request" ∧
        rule.ruletype ≠ "required_status_checks" then
      some ("invalid rulettype: " ++ rule.ruletype ++ " for ruleset filename " ++ base)
    else
      firstRuletypeError rest base

/-- The `for _, ba := range r.Spec.BypassApps` check. -/
def firstBypassError : List BypassApp → String → Option String
  | [], _ => none
  | ba :: rest, base =>
    if ba.mode ≠ "always" ∧ ba.mode ≠ "pull_request" then
      some ("invalid mode: " ++ ba.mode ++ " for bypassapp " ++ ba.appName ++
        " in ruleset filename " ++ base)
    else
      firstBypassError rest base

/-- The `for _, on := range r.Spec.On.Include` check: Go reads `on[0]`
with no emptiness guard, so an empty entry panics. -/
def includeCheck : List String → String → ValidateResult
  | [], _ => .ok
  | inc :: rest, base =>
    if inc = "" then .panic
    else if headChar inc = '~' ∧ inc ≠ "~DEFAULT_BRANCH" ∧ inc ≠ "~ALL" then
      .fail ("invalid include: " ++ inc ++ " in ruleset filename " ++ base)
    else
      includeCheck rest base

/-- `RuleSet.Validate` of `entity_ruleset.go`, checks in source order:
apiVersion, kind, name non-empty, name matches filename stem, rule
types, enforcement (`"disable"`/`"active"`/`"evaluate"`), bypass modes,
include sentinels. -/
def RuleSet.validate (r : RuleSet) (filename : String) : ValidateResult :=
  if r.apiVersion ≠ "v1" then
    .fail ("invalid apiVersion: " ++ r.apiVersion ++ " for ruleset filename " ++ filename)
  else if r.kind ≠ "Ruleset" then
    .fail ("invalid kind: " ++ r.kind ++ " for ruleset filename " ++ filename)
  else if r.name = "" then
    .fail ("metadata.name is empty for ruleset filename " ++ filename)
  else if r.name ≠ stemOf (filepathBase filename) then
    .fail ("invalid metadata.name: " ++ r.name ++ " for ruleset filename " ++ filepathBase filename)
  else
    match firstRuletypeError r.spec.rules (filepathBase filename) with
    | some e => .fail e
    | none =>
      if r.spec.enforcement ≠ "disable" ∧ r.spec.enforcement ≠ "active" ∧
          r.spec.enforcement ≠ "evaluate" then
        .fail ("invalid enforcement: " ++ r.spec.enforcement ++ " for ruleset filename " ++
          filepathBase filename)
      else
        match firstBypassError r.spec.bypassApps (filepathBase filename) with
        | some e => .fail e
        | none => includeCheck r.spec.onInclude (filepathBase filename)

/-! ## Ruleset directory reader (`ReadRuleSetDirectory`, lines 109-152) -/

/-- One entry of a flat directory listing for the ruleset reader: a
subdirectory, or a file carrying the outcome of `NewRuleSet` on it. -/
inductive RSEntry where
  | dirE (name : String)
  | fileE (name : String) (parse : Except String RuleSet)
deriving Repr

/-- State of a directory as seen through `utils.Exists` + `fs.ReadDir`. -/
inductive DirState (α : Type) where
  | absent
  | existsErr (e : String)
  | readErr (e : String)
  | present (entries : List α)
deriving Repr

/-- Name-keyed map of rulesets (Go `map[string]*RuleSet`). -/
def RSMap : Type := String → Option RuleSet

/-- The empty ruleset map. -/
def emptyRSMap : RSMap := fun _ => none

/-- Map insertion (Go `rulesets[name] = ruleset`, overwriting). -/
def insertRS (m : RSMap) (k : String) (v : RuleSet) : RSMap :=
  fun x => if x = k then some v else m x

/-- The entry loop of `ReadRuleSetDirectory`: skip directories and
dot-files, parse, validate, insert keyed by `ruleset.Name`.  `none`
models the whole program panicking inside `Validate`. -/
def readRuleSetEntries (dirname : String) : List RSEntry → RSMap → Option (RSMap × List String)
  | [], m => some (m, [])
  | .dirE _ :: rest, m => readRuleSetEntries dirname rest m
  | .fileE name parse :: rest, m =>
    if startsWithDot name then
      readRuleSetEntries dirname rest m
    else
      match parse with
      | .error e =>
        (readRuleSetEntries dirname rest m).map (fun p => (p.1, e :: p.2))
      | .ok rs =>
        match rs.validate (joinPath dirname name) with
        | .panic => none
        | .fail e => (readRuleSetEntries dirname rest m).map (fun p => (p.1, e :: p.2))
        | .ok => readRuleSetEntries dirname rest (insertRS m rs.name rs)

/-- `ReadRuleSetDirectory` of `entity_ruleset.go`: a missing directory
(or a failing existence check / enumeration) yields an empty map; the
returned triple is (map, errors, warnings); the warning list is never
appended to by this reader.  `none` models a panic escaping the call. -/
def ReadRuleSetDirectory (dirname : String) (d : DirState RSEntry) :
    Option (RSMap × List String × List String) :=
  match d with
  | .existsErr e => some (emptyRSMap, [e], [])
  | .absent => some (emptyRSMap, [], [])
  | .readErr e => some (emptyRSMap, [e], [])
  | .present entries =>
    (readRuleSetEntries dirname entries emptyRSMap).map (fun p => (p.1, p.2, []))

/-! ## Repository data model (`repository.go`)

`NewRepository` (yaml parsing) and `Repository.Validate` (which consults
the external `teams` / `externalUsers` tables and `utils.GithubAnsiString`,
all outside this package's pure logic) are oracles attached to each file
node; everything `ReadRepositories` / `recursiveReadRepositories` does
with their outcomes is embedded in full. -/

/-- What yaml parsing can populate of a `Repository`: the `name` header
and the yaml-visible `archived` field (tag `archived,omitempty`).
`Owner` has yaml tag `-` and is never set by parsing; `ReadRepositories`
overwrites `Archived` on every insertion anyway. -/
structure ParsedRepository where
  name : String
  archivedField : Bool := false
deriving DecidableEq, Repr

/-- A loaded repository as it sits in the result map: name header plus
the loader-derived `Owner` and `Archived` fields. -/
structure Repository where
  name : String
  owner : Option String
  archived : Bool
deriving DecidableEq, Repr

/-- A directory-tree node as the walker sees it: a file carrying the
outcomes of `NewRepository` (parse) and `Repository.Validate`
(`none` = valid), or a subdirectory carrying the outcome of `ReadDir`
on it (`readErr = some e` models a failing enumeration). -/
inductive Node where
  | file (fname : String) (parse : Except String ParsedRepository) (valErr : Option String)
  | dir (dname : String) (readErr : Option String) (contents : List Node)
deriving Repr

/-- Name-keyed map of repositories (Go `map[string]*Repository`). -/
def RepoMap : Type := String → Option Repository

/-- The empty repository map. -/
def emptyRepoMap : RepoMap := fun _ => none

/-- Map insertion (Go `repos[name] = repo`). -/
def insertRepo (m : RepoMap) (k : String) (v : Repository) : RepoMap :=
  fun x => if x = k then some v else m x

/-- The archive-directory loop of `ReadRepositories` (lines 82-105):
skip subdirectories and dot-files, warn on non-`.yaml` files, parse and
validate, then mark archived (owner left unset) and insert. -/
def readArchivedEntries (archivedDirname : String) :
    List Node → RepoMap → RepoMap × List String × List String
  | [], repos => (repos, [], [])
  | .dir _ _ _ :: rest, repos => readArchivedEntries archivedDirname rest repos
  | .file fname parse valErr :: rest, repos =>
    if startsWithDot fname then
      readArchivedEntries archivedDirname rest repos
    else if ¬ hasYamlSuffix fname then
      let p := readArchivedEntries archivedDirname rest repos
      (p.1, p.2.1, ("file " ++ fname ++ " doesn't have a .yaml extension") :: p.2.2)
    else
      match parse with
      | .error e =>
        let p := readArchivedEntries archivedDirname rest repos
        (p.1, e :: p.2.1, p.2.2)
      | .ok pr =>
        match valErr with
        | some e =>
          let p := readArchivedEntries archivedDirname rest repos
          (p.1, e :: p.2.1, p.2.2)
        | none =>
          readArchivedEntries archivedDirname rest
            (insertRepo repos pr.name ⟨pr.name, none, true⟩)

/-- The duplicate-definition error of `recursiveReadRepositories`
(line 164): the new location first, then the prior location, derived
from the existing entry's owner or the archive path when it has none. -/
def duplicateError (newPath : String) (rname : String) (existing : Repository)
    (archivedDirPath : String) : String :=
  let prior :=
    match existing.owner with
    | some o => joinPath o rname
    | none => joinPath archivedDirPath rname
  "Repository " ++ rname ++ " defined in 2 places (check " ++ newPath ++ " and " ++ prior ++ ")"

mutual

/-- `recursiveReadRepositories` of `repository.go` (lines 135-176) for
one directory: a failing `ReadDir` yields its error and stops this
branch; otherwise the entry loop runs. -/
def recRead (archivedDirPath teamDirPath teamName : String) (readErr : Option String)
    (contents : List Node) (repos : RepoMap) : RepoMap × List String × List String :=
  match readErr with
  | some e => (repos, [e], [])
  | none => recReadEntries archivedDirPath teamDirPath teamName contents repos

/-- The entry loop of `recursiveReadRepositories` (lines 144-174):
recurse into non-dot subdirectories passing the *subdirectory's own
name* as the team name; process `.yaml` files other than `team.yaml`;
on a name collision report `duplicateError` and skip, otherwise insert
with `owner := teamName` and `archived := false`. -/
def recReadEntries (archivedDirPath teamDirPath teamName : String) :
    List Node → RepoMap → RepoMap × List String × List String
  | [], repos => (repos, [], [])
  | .dir d rerr sub :: rest, repos =>
    if startsWithDot d then
      recReadEntries archivedDirPath teamDirPath teamName rest repos
    else
      let p1 := recRead archivedDirPath (joinPath teamDirPath d) d rerr sub repos
      let p2 := recReadEntries archivedDirPath teamDirPath teamName rest p1.1
      (p2.1, p1.2.1 ++ p2.2.1, p1.2.2 ++ p2.2.2)
  | .file fname parse valErr :: rest, repos =>
    if filepathExt fname = ".yaml" ∧ fname ≠ "team.yaml" then
      match parse with
      | .error e =>
        let p := recReadEntries archivedDirPath teamDirPath teamName rest repos
        (p.1, e :: p.2.1, p.2.2)
      | .ok pr =>
        match valErr with
        | some e =>
          let p := recReadEntries archivedDirPath teamDirPath teamName rest repos
          (p.1, e :: p.2.1, p.2.2)
        | none =>
          match repos pr.name with
          | some existing =>
            let p := recReadEntries archivedDirPath teamDirPath teamName rest repos
            (p.1, duplicateError (joinPath teamDirPath fname) pr.name existing archivedDirPath
              :: p.2.1, p.2.2)
          | none =>
            recReadEntries archivedDirPath teamDirPath teamName rest
              (insertRepo repos pr.name ⟨pr.name, some teamName, false⟩)
    else
      recReadEntries archivedDirPath teamDirPath teamName rest repos

end

/-- The top-level loop of `ReadRepositories` over the team root's
entries (lines 124-130): only directories are descended into (with no
dot check at this level), each with its own name as the team name. -/
def readTeamDirs (archivedDirname teamDirname : String) :
    List Node → RepoMap → RepoMap × List String × List String
  | [], repos => (repos, [], [])
  | .file _ _ _ :: rest, repos => readTeamDirs archivedDirname teamDirname rest repos
  | .dir d rerr sub :: rest, repos =>
    let p1 := recRead archivedDirname (joinPath teamDirname d) d rerr sub repos
    let p2 := readTeamDirs archivedDirname teamDirname rest p1.1
    (p2.1, p1.2.1 ++ p2.2.1, p1.2.2 ++ p2.2.2)

/-- Phase 2 of `ReadRepositories` (lines 107-132), continuing from the
phase-1 state `st = (repos, errors, warning)`. -/
def readRepositoriesPhase2 (archivedDirname teamDirname : String) (teamDir : DirState Node)
    (st : RepoMap × List String × List String) : Option RepoMap × List String × List String :=
  match teamDir with
  | .existsErr e => (some st.1, st.2.1 ++ [e], st.2.2)
  | .absent => (some st.1, st.2.1, st.2.2)
  | .readErr e => (none, st.2.1 ++ [e], st.2.2)
  | .present entries =>
    let p := readTeamDirs archivedDirname teamDirname entries st.1
    (some p.1, st.2.1 ++ p.2.1, st.2.2 ++ p.2.2)

/-- `ReadRepositories` of `repository.go` (lines 64-133): phase 1 loads
the archive directory, phase 2 walks the team tree against the shared
map.  The `Option RepoMap` distinguishes Go's `nil` map (returned on a
`ReadDir` failure, lines 79 and 121) from an empty map. -/
def ReadRepositories (archivedDirname teamDirname : String)
    (archivedDir teamDir : DirState Node) : Option RepoMap × List String × List String :=
  match archivedDir with
  | .existsErr e => (some emptyRepoMap, [e], [])
  | .readErr e => (none, [e], [])
  | .absent =>
    readRepositoriesPhase2 archivedDirname teamDirname teamDir (emptyRepoMap, [], [])
  | .present entries =>
    readRepositoriesPhase2 archivedDirname teamDirname teamDir
      (readArchivedEntries archivedDirname entries emptyRepoMap)

/-- Lookup in the first component of a `ReadRepositories` result. -/
def lookupRepo (res : Option RepoMap × List String × List String) (k : String) :
    Option Repository :=
  match res.1 with
  | some m => m k
  | none => none

/-! ## Shared sample values for concrete instantiations -/

/-- A sample `RuleSetParameters` value. -/
def samplePR : RuleSetParameters :=
  { dismissStaleReviewsOnPush := false
    requireCodeOwnerReview := false
    requiredApprovingReviewCount := 0
    requiredReviewThreadResolution := false
    requireLastPushApproval := false
    requiredStatusChecks := []
    strictRequiredStatusChecksPolicy := false }

/-- A ruleset that passes every check of `Validate` before the
enforcement check, with enforcement `"disabled"` (the value the struct
comment on `RuleSetDefinition.Enforcement` documents). -/
def rsDisabled : RuleSet :=
  { apiVersion := "v1", kind := "Ruleset", name := "myruleset"
    spec := { enforcement := "disabled", bypassApps := [], onInclude := [], onExclude := []
              rules := [] } }

/-- `rsDisabled` with the spelling the code actually accepts. -/
def rsDisable : RuleSet :=
  { rsDisabled with spec := { rsDisabled.spec with enforcement := "disable" } }

/-- A ruleset that passes every check before the include loop but whose
include list contains the empty string. -/
def rsEmptyInclude : RuleSet :=
  { apiVersion := "v1", kind := "Ruleset", name := "myruleset"
    spec := { enforcement := "disable", bypassApps := [], onInclude := [""], onExclude := []
              rules := [] } }

/-! ## Helper lemmas -/

/-- `List.contains` agrees with membership for strings. -/
theorem contains_eq_mem (l : List String) (x : String) : l.contains x = true ↔ x ∈ l := by
  induction l <;> simp_all [List.contains_cons]

/-- `includeCheck` never panics when every include entry is non-empty. -/
theorem includeCheck_no_panic (l : List String) (base : String)
    (h : ∀ inc ∈ l, inc ≠ "") : includeCheck l base ≠ .panic := by
  induction l with
  | nil => simp [includeCheck]
  | cons a as ih =>
    have ha : a ≠ "" := h a (by simp)
    simp only [includeCheck, if_neg ha]
    split
    · simp
    · exact ih (fun inc hinc => h inc (by simp [hinc]))

/-- Every run of `RuleSet.validate` either fails with some message or
is decided by the include-sentinel loop. -/
theorem validate_shape (r : RuleSet) (f : String) :
    (∃ m, r.validate f = .fail m) ∨
      r.validate f = includeCheck r.spec.onInclude (filepathBase f) := by
  unfold RuleSet.validate
  repeat' split
  all_goals first
    | exact Or.inl ⟨_, rfl⟩
    | exact Or.inr rfl

/-- The first component of `StringArrayEquivalent` is set equivalence. -/
theorem SAE_fst_iff (l r : List String) :
    (StringArrayEquivalent l r).1 = true ↔ (∀ s, s ∈ l ↔ s ∈ r) := by
  simp only [StringArrayEquivalent, Bool.and_eq_true, List.all_eq_true, contains_eq_mem]
  constructor
  · rintro ⟨h1, h2⟩ s
    exact ⟨fun hs => h1 s hs, fun hs => h2 s hs⟩
  · intro h
    exact ⟨fun s hs => (h s).1 hs, fun s hs => (h s).2 hs⟩

/-- `CompareRulesetParameters` at `required_status_checks`, as a
Boolean conjunction. -/
theorem compare_rsc_eq (l r : RuleSetParameters) :
    CompareRulesetParameters "required_status_checks" l r =
      ((StringArrayEquivalent l.requiredStatusChecks r.requiredStatusChecks).1 &&
        (l.strictRequiredStatusChecksPolicy == r.strictRequiredStatusChecksPolicy)) := by
  unfold CompareRulesetParameters
  rw [if_neg (by decide), if_neg (by decide), if_pos rfl]
  cases hb : (StringArrayEquivalent l.requiredStatusChecks r.requiredStatusChecks).1 <;>
    cases hs : l.strictRequiredStatusChecksPolicy <;>
      cases ht : r.strictRequiredStatusChecksPolicy <;> simp [hb, hs, ht]

/-- Keeps ruleset-directory entries that are not dot-named files. -/
def keepRSEntry : RSEntry → Bool
  | .dirE _ => true
  | .fileE n _ => !(startsWithDot n)

/-- Keeps archive-directory entries that are not dot-named files. -/
def keepArchiveFile : Node → Bool
  | .dir _ _ _ => true
  | .file n _ _ => !(startsWithDot n)

/-- Keeps walk entries that are not dot-named directories. -/
def keepWalkDir : Node → Bool
  | .dir d _ _ => !(startsWithDot d)
  | .file _ _ _ => true

/-- Dot-named files never influence the ruleset-directory entry loop. -/
theorem readRuleSetEntries_skip_dotfiles (dirname : String) (entries : List RSEntry)
    (m : RSMap) :
    readRuleSetEntries dirname entries m =
      readRuleSetEntries dirname (entries.filter keepRSEntry) m := by
  induction entries generalizing m with
  | nil => rfl
  | cons e rest ih =>
    cases e with
    | dirE n => simpa [readRuleSetEntries, keepRSEntry] using ih m
    | fileE n parse =>
      by_cases hd : startsWithDot n
      · simp [readRuleSetEntries, keepRSEntry, hd, ih m]
      · cases parse with
        | error e2 => simp [readRuleSetEntries, keepRSEntry, hd, ih m]
        | ok rs =>
          cases hv : rs.validate (joinPath dirname n) with
          | ok => simp [readRuleSetEntries, keepRSEntry, hd, hv, ih]
          | fail e2 => simp [readRuleSetEntries, keepRSEntry, hd, hv, ih m]
          | panic => simp [readRuleSetEntries, keepRSEntry, hd, hv]

/-- Dot-named files never influence the archive-directory loop. -/
theorem readArchivedEntries_skip_dotfiles (ad : String) (entries : List Node)
    (repos : RepoMap) :
    readArchivedEntries ad entries repos =
      readArchivedEntries ad (entries.filter keepArchiveFile) repos := by
  induction entries generalizing repos with
  | nil => rfl
  | cons e rest ih =>
    cases e with
    | dir d rerr sub => simpa [readArchivedEntries, keepArchiveFile] using ih repos
    | file n parse valErr =>
      by_cases hd : startsWithDot n
      · simp [readArchivedEntries, keepArchiveFile, hd, ih repos]
      · by_cases hy : hasYamlSuffix n
        · cases parse with
          | error e2 => simp [readArchivedEntries, keepArchiveFile, hd, hy, ih repos]
          | ok pr =>
            cases valErr with
            | some e2 => simp [readArchivedEntries, keepArchiveFile, hd, hy, ih repos]
            | none => simp [readArchivedEntries, keepArchiveFile, hd, hy, ih]
        · simp [readArchivedEntries, keepArchiveFile, hd, hy, ih repos]

/-- Dot-named directories never influence one level of the recursive
team-tree walk. -/
theorem recReadEntries_skip_dotdirs (a p t : String) (entries : List Node)
    (repos : RepoMap) :
    recReadEntries a p t entries repos =
      recReadEntries a p t (entries.filter keepWalkDir) repos := by
  induction entries generalizing repos with
  | nil => rfl
  | cons e rest ih =>
    cases e with
    | dir d rerr sub =>
      by_cases hd : startsWithDot d
      · simp [recReadEntries, keepWalkDir, hd, ih repos]
      · simp [recReadEntries, keepWalkDir, hd, ih]
    | file n parse valErr =>
      by_cases hg : filepathExt n = ".yaml" ∧ n ≠ "team.yaml"
      · cases parse with
        | error e2 => simp [recReadEntries, keepWalkDir, hg, ih repos]
        | ok pr =>
          cases valErr with
          | some e2 => simp [recReadEntries, keepWalkDir, hg, ih repos]
          | none =>
            cases hr : repos pr.name with
            | some existing => simp [recReadEntries, keepWalkDir, hg, hr, ih repos]
            | none => simp [recReadEntries, keepWalkDir, hg, hr, ih]
      · cases parse with
        | error e2 => simp [recReadEntries, keepWalkDir, hg, ih repos]
        | ok pr =>
          cases valErr <;> simp [recReadEntries, keepWalkDir, hg, ih repos]

/-! ## Ownership characterization for the recursive walk -/

/-- Witness relation for the walk: in a directory whose own name is `t`
and whose listing is `contents`, the walk can reach a candidate
repository file `fname` (a `.yaml` file other than `team.yaml` that
parses and validates) whose parsed name is `k`, inside a chain of
non-dot subdirectories, and `o` is the name of the directory that
DIRECTLY contains the file — the owner the walk would assign. -/
inductive FoundRepo : String → List Node → String → String → String → Prop
  | here (t : String) (contents : List Node) (fname : String) (pr : ParsedRepository)
      (hmem : Node.file fname (.ok pr) none ∈ contents)
      (hext : filepathExt fname = ".yaml") (hteam : fname ≠ "team.yaml") :
      FoundRepo t contents fname pr.name t
  | there (t : String) (contents : List Node) (d : String) (rerr : Option String)
      (sub : List Node) (fname k o : String)
      (hmem : Node.dir d rerr sub ∈ contents) (hdot : startsWithDot d = false)
      (hsub : FoundRepo d sub fname k o) :
      FoundRepo t contents fname k o

/-- A `FoundRepo` witness survives widening the listing by one entry. -/
theorem FoundRepo.widen (t : String) (e : Node) (contents : List Node)
    (fname k o : String) (h : FoundRepo t contents fname k o) :
    FoundRepo t (e :: contents) fname k o := by
  cases h with
  | here t contents fname pr hmem hext hteam =>
    exact .here t _ fname pr (List.mem_cons_of_mem e hmem) hext hteam
  | there t contents d rerr sub fname k o hmem hdot hsub =>
    exact .there t _ d rerr sub fname k o (List.mem_cons_of_mem e hmem) hdot hsub

/-- The walk never removes or overwrites an existing map entry
(insertion is guarded by the duplicate check). -/
theorem recReadEntries_preserve_aux :
    ∀ (N : Nat) (contents : List Node), sizeOf contents < N →
      ∀ (a p t : String) (repos : RepoMap) (k : String) (r : Repository),
        repos k = some r → (recReadEntries a p t contents repos).1 k = some r := by
  intro N
  induction N with
  | zero => intro contents h; omega
  | succ N ih =>
    intro contents hN a p t repos k r hk
    cases contents with
    | nil => simpa [recReadEntries] using hk
    | cons e rest =>
      have hrest : sizeOf rest < N := by
        cases e <;> simp at hN <;> omega
      cases e with
      | dir d rerr sub =>
        have hsub : sizeOf sub < N := by simp at hN; omega
        cases hd : startsWithDot d with
        | true => simp only [recReadEntries, hd, if_true]; exact ih rest hrest a p t repos k r hk
        | false =>
          have hpre : (recRead a (joinPath p d) d rerr sub repos).1 k = some r := by
            cases rerr with
            | some e2 => simpa [recRead] using hk
            | none =>
              simpa [recRead] using ih sub hsub a (joinPath p d) d repos k r hk
          simp only [recReadEntries, hd, Bool.false_eq_true, if_false]
          exact ih rest hrest a p t _ k r hpre
      | file fname parse valErr =>
        by_cases hg : filepathExt fname = ".yaml" ∧ fname ≠ "team.yaml"
        · cases parse with
          | error e2 =>
            simp only [recReadEntries, if_pos hg]
            exact ih rest hrest a p t repos k r hk
          | ok pr =>
            cases valErr with
            | some e2 =>
              simp only [recReadEntries, if_pos hg]
              exact ih rest hrest a p t repos k r hk
            | none =>
              cases hrn : repos pr.name with
              | some existing =>
                simp only [recReadEntries, if_pos hg, hrn]
                exact ih rest hrest a p t repos k r hk
              | none =>
                have hk2 : insertRepo repos pr.name ⟨pr.name, some t, false⟩ k = some r := by
                  have hkn : k ≠ pr.name := by
                    intro hcon
                    rw [hcon, hrn] at hk
                    exact Option.noConfusion hk
                  simpa [insertRepo, hkn] using hk
                simp only [recReadEntries, if_pos hg, hrn]
                exact ih rest hrest a p t _ k r hk2
        · cases parse with
          | error e2 =>
            simp only [recReadEntries, if_neg hg]
            exact ih rest hrest a p t repos k r hk
          | ok pr =>
            cases valErr <;> simp only [recReadEntries, if_neg hg] <;>
              exact ih rest hrest a p t repos k r hk

/-- `recReadEntries_preserve_aux` without the size bookkeeping. -/
theorem recReadEntries_preserve (contents : List Node) (a p t : String) (repos : RepoMap)
    (k : String) (r : Repository) (hk : repos k = some r) :
    (recReadEntries a p t contents repos).1 k = some r :=
  recReadEntries_preserve_aux (sizeOf contents + 1) contents (by omega) a p t repos k r hk

/-- `recRead` never removes or overwrites an existing map entry. -/
theorem recRead_preserve (a p t : String) (rerr : Option String) (sub : List Node)
    (repos : RepoMap) (k : String) (r : Repository) (hk : repos k = some r) :
    (recRead a p t rerr sub repos).1 k = some r := by
  cases rerr with
  | some e => simpa [recRead] using hk
  | none => simpa [recRead] using recReadEntries_preserve sub a p t repos k r hk

/-- Characterization of walk insertions: any key newly present after
`recReadEntries` holds a repository whose name is the key, marked not
archived, whose owner is the name of the directory directly containing
its file, as witnessed by `FoundRepo`. -/
theorem recReadEntries_char_aux :
    ∀ (N : Nat) (contents : List Node), sizeOf contents < N →
      ∀ (a p t : String) (repos : RepoMap) (k : String) (r : Repository),
        (recReadEntries a p t contents repos).1 k = some r → repos k = none →
        r.name = k ∧ r.archived = false ∧
          ∃ fname o, r.owner = some o ∧ FoundRepo t contents fname k o := by
  intro N
  induction N with
  | zero => intro contents h; omega
  | succ N ih =>
    intro contents hN a p t repos k r hres h0
    cases contents with
    | nil => simp [recReadEntries, h0] at hres
    | cons e rest =>
      have hrest : sizeOf rest < N := by
        cases e <;> simp at hN <;> omega
      cases e with
      | dir d rerr sub =>
        have hsub : sizeOf sub < N := by simp at hN; omega
        cases hd : startsWithDot d with
        | true =>
          simp only [recReadEntries, hd, if_true] at hres
          obtain ⟨h1, h2, fname, o, h3, h4⟩ := ih rest hrest a p t repos k r hres h0
          exact ⟨h1, h2, fname, o, h3, h4.widen t _ rest fname k o⟩
        | false =>
          simp only [recReadEntries, hd, Bool.false_eq_true, if_false] at hres
          cases hm1 : (recRead a (joinPath p d) d rerr sub repos).1 k with
          | none =>
            obtain ⟨h1, h2, fname, o, h3, h4⟩ := ih rest hrest a p t _ k r hres hm1
            exact ⟨h1, h2, fname, o, h3, h4.widen t _ rest fname k o⟩
          | some r1 =>
            have hpers := recReadEntries_preserve rest a p t _ k r1 hm1
            have hr1 : r1 = r := Option.some.inj (hpers.symm.trans hres)
            subst hr1
            cases rerr with
            | some e2 => simp [recRead, h0] at hm1
            | none =>
              have hm1' : (recReadEntries a (joinPath p d) d sub repos).1 k = some r1 := by
                simpa [recRead] using hm1
              obtain ⟨h1, h2, fname, o, h3, h4⟩ :=
                ih sub hsub a (joinPath p d) d repos k r1 hm1' h0
              exact ⟨h1, h2, fname, o, h3,
                .there t _ d none sub fname k o (List.mem_cons_self _ _) hd h4⟩
      | file fname parse valErr =>
        by_cases hg : filepathExt fname = ".yaml" ∧ fname ≠ "team.yaml"
        · cases parse with
          | error e2 =>
            simp only [recReadEntries, if_pos hg] at hres
            obtain ⟨h1, h2, fn, o, h3, h4⟩ := ih rest hrest a p t repos k r hres h0
            exact ⟨h1, h2, fn, o, h3, h4.widen t _ rest fn k o⟩
          | ok pr =>
            cases valErr with
            | some e2 =>
              simp only [recReadEntries, if_pos hg] at hres
              obtain ⟨h1, h2, fn, o, h3, h4⟩ := ih rest hrest a p t repos k r hres h0
              exact ⟨h1, h2, fn, o, h3, h4.widen t _ rest fn k o⟩
            | none =>
              cases hrn : repos pr.name with
              | some existing =>
                simp only [recReadEntries, if_pos hg, hrn] at hres
                obtain ⟨h1, h2, fn, o, h3, h4⟩ := ih rest hrest a p t repos k r hres h0
                exact ⟨h1, h2, fn, o, h3, h4.widen t _ rest fn k o⟩
              | none =>
                simp only [recReadEntries, if_pos hg, hrn] at hres
                by_cases hkn : k = pr.name
                · have hins : insertRepo repos pr.name ⟨pr.name, some t, false⟩ k =
                      some ⟨pr.name, some t, false⟩ := by
                    simp [insertRepo, hkn]
                  have hpers := recReadEntries_preserve rest a p t _ k _ hins
                  have hr1 : r = ⟨pr.name, some t, false⟩ :=
                    Option.some.inj (hres.symm.trans hpers)
                  subst hr1
                  refine ⟨hkn.symm, rfl, fname, t, rfl, ?_⟩
                  rw [hkn]
                  exact .here t _ fname pr (List.mem_cons_self _ _) hg.1 hg.2
                · have hm1 : insertRepo repos pr.name ⟨pr.name, some t, false⟩ k = none := by
                    simpa [insertRepo, hkn] using h0
                  obtain ⟨h1, h2, fn, o, h3, h4⟩ := ih rest hrest a p t _ k r hres hm1
                  exact ⟨h1, h2, fn, o, h3, h4.widen t _ rest fn k o⟩
        · cases parse with
          | error e2 =>
            simp only [recReadEntries, if_neg hg] at hres
            obtain ⟨h1, h2, fn, o, h3, h4⟩ := ih rest hrest a p t repos k r hres h0
            exact ⟨h1, h2, fn, o, h3, h4.widen t _ rest fn k o⟩
          | ok pr =>
            cases valErr with
            | some e2 =>
              simp only [recReadEntries, if_neg hg] at hres
              obtain ⟨h1, h2, fn, o, h3, h4⟩ := ih rest hrest a p t repos k r hres h0
              exact ⟨h1, h2, fn, o, h3, h4.widen t _ rest fn k o⟩
            | none =>
              simp only [recReadEntries, if_neg hg] at hres
              obtain ⟨h1, h2, fn, o, h3, h4⟩ := ih rest hrest a p t repos k r hres h0
              exact ⟨h1, h2, fn, o, h3, h4.widen t _ rest fn k o⟩

/-- `recReadEntries_char_aux` without the size bookkeeping. -/
theorem recReadEntries_char (contents : List Node) (a p t : String) (repos : RepoMap)
    (k : String) (r : Repository)
    (hres : (recReadEntries a p t contents repos).1 k = some r) (h0 : repos k = none) :
    r.name = k ∧ r.archived = false ∧
      ∃ fname o, r.owner = some o ∧ FoundRepo t contents fname k o :=
  recReadEntries_char_aux (sizeOf contents + 1) contents (by omega) a p t repos k r hres h0

/-- `recRead` version of `recReadEntries_char`. -/
theorem recRead_char (a p t : String) (rerr : Option String) (sub : List Node)
    (repos : RepoMap) (k : String) (r : Repository)
    (hres : (recRead a p t rerr sub repos).1 k = some r) (h0 : repos k = none) :
    r.name = k ∧ r.archived = false ∧
      ∃ fname o, r.owner = some o ∧ FoundRepo t sub fname k o := by
  cases rerr with
  | some e => simp [recRead, h0] at hres
  | none =>
    have hres' : (recReadEntries a p t sub repos).1 k = some r := by
      simpa [recRead] using hres
    exact recReadEntries_char sub a p t repos k r hres' h0

/-- The top-level team loop never removes or overwrites a map entry. -/
theorem readTeamDirs_preserve (entries : List Node) (ad td : String) (repos : RepoMap)
    (k : String) (r : Repository) (hk : repos k = some r) :
    (readTeamDirs ad td entries repos).1 k = some r := by
  induction entries generalizing repos with
  | nil => simpa [readTeamDirs] using hk
  | cons e rest ih =>
    cases e with
    | file fname parse valErr => simpa [readTeamDirs] using ih repos hk
    | dir d rerr sub =>
      simp only [readTeamDirs]
      exact ih _ (recRead_preserve ad (joinPath td d) d rerr sub repos k r hk)

/-- Witness relation at the top level: some top-level team directory's
subtree contains the candidate file, owner assigned per `FoundRepo`. -/
inductive FoundRepoTop : List Node → String → String → String → Prop
  | top (entries : List Node) (T : String) (rerr : Option String) (sub : List Node)
      (fname k o : String) (hmem : Node.dir T rerr sub ∈ entries)
      (hsub : FoundRepo T sub fname k o) :
      FoundRepoTop entries fname k o

/-- A `FoundRepoTop` witness survives widening the listing. -/
theorem FoundRepoTop.widenTop (e : Node) (entries : List Node) (fname k o : String)
    (h : FoundRepoTop entries fname k o) : FoundRepoTop (e :: entries) fname k o := by
  cases h
  rename_i T rerr sub hmem hsub
  exact .top _ T rerr sub _ _ _ (List.mem_cons_of_mem e hmem) hsub

/-- Characterization of insertions made by the top-level team loop. -/
theorem readTeamDirs_char (entries : List Node) (ad td : String) (repos : RepoMap)
    (k : String) (r : Repository)
    (hres : (readTeamDirs ad td entries repos).1 k = some r) (h0 : repos k = none) :
    r.name = k ∧ r.archived = false ∧
      ∃ fname o, r.owner = some o ∧ FoundRepoTop entries fname k o := by
  induction entries generalizing repos with
  | nil => simp [readTeamDirs, h0] at hres
  | cons e rest ih =>
    cases e with
    | file fname parse valErr =>
      simp only [readTeamDirs] at hres
      obtain ⟨h1, h2, fn, o, h3, h4⟩ := ih repos hres h0
      exact ⟨h1, h2, fn, o, h3, FoundRepoTop.widenTop _ _ _ _ _ h4⟩
    | dir d rerr sub =>
      simp only [readTeamDirs] at hres
      cases hm1 : (recRead ad (joinPath td d) d rerr sub repos).1 k with
      | none =>
        obtain ⟨h1, h2, fn, o, h3, h4⟩ := ih _ hres hm1
        exact ⟨h1, h2, fn, o, h3, FoundRepoTop.widenTop _ _ _ _ _ h4⟩
      | some r1 =>
        have hpers := readTeamDirs_preserve rest ad td _ k r1 hm1
        have hr1 : r1 = r := Option.some.inj (hpers.symm.trans hres)
        subst hr1
        obtain ⟨h1, h2, fn, o, h3, h4⟩ := recRead_char ad (joinPath td d) d rerr sub repos
          k r1 hm1 h0
        exact ⟨h1, h2, fn, o, h3,
          .top _ d rerr sub fn k o (List.mem_cons_self _ _) h4⟩

/-- Every repository the archive phase adds is marked archived with no
owner, keyed by its parsed name. -/
theorem readArchivedEntries_char (entries : List Node) (ad : String) (repos : RepoMap)
    (k : String) (r : Repository)
    (hres : (readArchivedEntries ad entries repos).1 k = some r) :
    repos k = some r ∨ (r.name = k ∧ r.owner = none ∧ r.archived = true) := by
  induction entries generalizing repos with
  | nil => exact Or.inl (by simpa [readArchivedEntries] using hres)
  | cons e rest ih =>
    cases e with
    | dir d rerr sub =>
      simp only [readArchivedEntries] at hres
      exact ih repos hres
    | file fname parse valErr =>
      by_cases hd : startsWithDot fname = true
      · simp only [readArchivedEntries, hd, if_true] at hres
        exact ih repos hres
      · by_cases hy : hasYamlSuffix fname = true
        · cases parse with
          | error e2 =>
            simp only [readArchivedEntries, hd, hy, not_true, if_neg, if_false] at hres
            exact ih repos hres
          | ok pr =>
            cases valErr with
            | some e2 =>
              simp only [readArchivedEntries, hd, hy, if_neg, if_false] at hres
              exact ih repos hres
            | none =>
              simp only [readArchivedEntries, hd, hy, if_neg, if_false] at hres
              rcases ih _ hres with hin | hnew
              · by_cases hkn : k = pr.name
                · subst hkn
                  simp only [insertRepo, if_pos rfl] at hin
                  exact Or.inr ⟨(Option.some.inj hin).symm ▸ rfl, by
                    rw [← Option.some.inj hin], by rw [← Option.some.inj hin]⟩
                · exact Or.inl (by simpa [insertRepo, hkn] using hin)
              · exact Or.inr hnew
        · simp only [readArchivedEntries, hd, hy, if_neg, if_false] at hres
          exact ih repos hres

/-- C1 counterexample: a valid repository file nested two levels below
the top-level team directory `T` (at `teams/T/sub/X.yaml`) is loaded
with owner `"sub"` — the immediate subdirectory's name — not the
top-level team name `"T"` the claim requires (the recursion passes each
subdirectory's own name as the team name, line 146 of repository.go). -/
theorem C1_counterexample :
    lookupRepo (ReadRepositories "archived" "teams" .absent
        (.present [Node.dir "T" none [Node.dir "sub" none
          [Node.file "X.yaml" (.ok ⟨"X", false⟩) none]]])) "X" =
      some ⟨"X", some "sub", false⟩ ∧
    (⟨"X", some "sub", false⟩ : Repository).owner ≠ some "T" := by
  constructor
  · simp [ReadRepositories, readRepositoriesPhase2, readTeamDirs, recRead, recReadEntries,
      lookupRepo, insertRepo, emptyRepoMap, joinPath, filepathExt, startsWithDot]
  · decide

/-- C1 (amended): every non-archived repository in the result map of
`ReadRepositories` was inserted by the team-tree walk keyed by its
parsed name, with `archived == false`, and its owner is the name of the
directory DIRECTLY containing its file (which equals the top-level team
name exactly when the file sits directly in the top-level team
directory), as witnessed by `FoundRepoTop`/`FoundRepo`. -/
theorem C1_owner_from_containing_dir (ad td : String) (archivedDir : DirState Node)
    (tentries : List Node) (m : RepoMap) (k : String) (r : Repository)
    (hm : (ReadRepositories ad td archivedDir (.present tentries)).1 = some m)
    (hk : m k = some r) (hfresh : r.archived = false) :
    r.name = k ∧ ∃ fname o, r.owner = some o ∧ FoundRepoTop tentries fname k o := by
  cases archivedDir with
  | readErr e => simp [ReadRepositories] at hm
  | existsErr e =>
    simp only [ReadRepositories] at hm
    have hme := Option.some.inj hm
    rw [← hme] at hk
    simp [emptyRepoMap] at hk
  | absent =>
    simp only [ReadRepositories, readRepositoriesPhase2] at hm
    have hme := Option.some.inj hm
    rw [← hme] at hk
    obtain ⟨h1, h2, fn, o, h3, h4⟩ :=
      readTeamDirs_char tentries ad td emptyRepoMap k r hk rfl
    exact ⟨h1, fn, o, h3, h4⟩
  | present entries =>
    simp only [ReadRepositories, readRepositoriesPhase2] at hm
    have hme := Option.some.inj hm
    rw [← hme] at hk
    cases ha : (readArchivedEntries ad entries emptyRepoMap).1 k with
    | none =>
      obtain ⟨h1, h2, fn, o, h3, h4⟩ := readTeamDirs_char tentries ad td _ k r hk ha
      exact ⟨h1, fn, o, h3, h4⟩
    | some r0 =>
      have hp := readTeamDirs_preserve tentries ad td _ k r0 ha
      rw [hk] at hp
      have hr0 : r = r0 := Option.some.inj hp
      rcases readArchivedEntries_char entries ad emptyRepoMap k r0 ha with hc | hc
      · simp [emptyRepoMap] at hc
      · rw [hr0, hc.2.2] at hfresh
        exact Bool.noConfusion hfresh

/-- C1 witness: the amended theorem applied to a concrete one-level
tree, where the owner is the top-level team name. -/
theorem C1_owner_from_containing_dir_witness :
    (⟨"X", some "T", false⟩ : Repository).name = "X" ∧
    ∃ fname o, (⟨"X", some "T", false⟩ : Repository).owner = some o ∧
      FoundRepoTop [Node.dir "T" none [Node.file "X.yaml" (.ok ⟨"X", false⟩) none]]
        fname "X" o := by
  have hm : (ReadRepositories "archived" "teams" .absent
      (.present [Node.dir "T" none [Node.file "X.yaml" (.ok ⟨"X", false⟩) none]])).1 =
      some (insertRepo emptyRepoMap "X" ⟨"X", some "T", false⟩) := by
    simp [ReadRepositories, readRepositoriesPhase2, readTeamDirs, recRead, recReadEntries,
      joinPath, filepathExt, startsWithDot, emptyRepoMap]
  exact C1_owner_from_containing_dir "archived" "teams" .absent _ _ "X" _ hm
    (by simp [insertRepo]) rfl

/-- C3: `CompareRulesetParameters` with rule type `required_status_checks`
returns `true` iff the two `requiredStatusChecks` lists are equal as
unordered sets and the strict-policy flags are equal; in particular
`["a","b"]` vs `["b","a"]` with equal strict flags compare equivalent,
and flipping the strict-policy flag alone makes the result `false`. -/
theorem C3_status_checks_set_equivalence :
    (∀ l r : RuleSetParameters,
      CompareRulesetParameters "required_status_checks" l r = true ↔
        ((∀ s : String, s ∈ l.requiredStatusChecks ↔ s ∈ r.requiredStatusChecks) ∧
          l.strictRequiredStatusChecksPolicy = r.strictRequiredStatusChecksPolicy)) ∧
    (∀ s : Bool,
      CompareRulesetParameters "required_status_checks"
        { samplePR with requiredStatusChecks := ["a", "b"],
                        strictRequiredStatusChecksPolicy := s }
        { samplePR with requiredStatusChecks := ["b", "a"],
                        strictRequiredStatusChecksPolicy := s } = true) ∧
    (∀ p : RuleSetParameters,
      CompareRulesetParameters "required_status_checks" p
        { p with strictRequiredStatusChecksPolicy := !p.strictRequiredStatusChecksPolicy }
        = false) := by
  refine ⟨fun l r => ?_, fun s => ?_, fun p => ?_⟩
  · rw [compare_rsc_eq]
    simp [Bool.and_eq_true, SAE_fst_iff]
  · cases s <;> decide
  · rw [compare_rsc_eq]
    cases hs : p.strictRequiredStatusChecksPolicy <;> simp [hs]

/-- C4: `CompareRulesetParameters` with rule type `pull_request` is
reflexive, and changing exactly one of the five pull-request review
fields yields a pair comparing `false`. -/
theorem C4_pull_request_fields :
    (∀ p : RuleSetParameters, CompareRulesetParameters "pull_request" p p = true) ∧
    (∀ (p : RuleSetParameters) (v : Bool), v ≠ p.dismissStaleReviewsOnPush →
      CompareRulesetParameters "pull_request" p { p with dismissStaleReviewsOnPush := v } = false) ∧
    (∀ (p : RuleSetParameters) (v : Bool), v ≠ p.requireCodeOwnerReview →
      CompareRulesetParameters "pull_request" p { p with requireCodeOwnerReview := v } = false) ∧
    (∀ (p : RuleSetParameters) (v : Int), v ≠ p.requiredApprovingReviewCount →
      CompareRulesetParameters "pull_request" p { p with requiredApprovingReviewCount := v } = false) ∧
    (∀ (p : RuleSetParameters) (v : Bool), v ≠ p.requiredReviewThreadResolution →
      CompareRulesetParameters "pull_request" p { p with requiredReviewThreadResolution := v } = false) ∧
    (∀ (p : RuleSetParameters) (v : Bool), v ≠ p.requireLastPushApproval →
      CompareRulesetParameters "pull_request" p { p with requireLastPushApproval := v } = false) := by
  refine ⟨fun p => by simp [CompareRulesetParameters], fun p v h => ?_, fun p v h => ?_,
    fun p v h => ?_, fun p v h => ?_, fun p v h => ?_⟩ <;>
    simp [CompareRulesetParameters, Ne.symm h]

/-- C4 witness: the theorem instantiated at a concrete parameter
value, each hypothesis discharged by computation. -/
theorem C4_pull_request_fields_witness :
    CompareRulesetParameters "pull_request" samplePR samplePR = true ∧
    CompareRulesetParameters "pull_request" samplePR
      { samplePR with dismissStaleReviewsOnPush := true } = false ∧
    CompareRulesetParameters "pull_request" samplePR
      { samplePR with requireCodeOwnerReview := true } = false ∧
    CompareRulesetParameters "pull_request" samplePR
      { samplePR with requiredApprovingReviewCount := 2 } = false ∧
    CompareRulesetParameters "pull_request" samplePR
      { samplePR with requiredReviewThreadResolution := true } = false ∧
    CompareRulesetParameters "pull_request" samplePR
      { samplePR with requireLastPushApproval := true } = false :=
  ⟨C4_pull_request_fields.1 samplePR,
   C4_pull_request_fields.2.1 samplePR true (by decide),
   C4_pull_request_fields.2.2.1 samplePR true (by decide),
   C4_pull_request_fields.2.2.2.1 samplePR 2 (by decide),
   C4_pull_request_fields.2.2.2.2.1 samplePR true (by decide),
   C4_pull_request_fields.2.2.2.2.2 samplePR true (by decide)⟩

/-- C6: the code rejects the documented enforcement value `"disabled"`
(the struct comment on `RuleSetDefinition.Enforcement` lists
disabled/active/evaluate, but `Validate` tests for `"disable"`): a
ruleset passing every earlier check with enforcement `"disabled"` fails
validation, while `"disable"`, `"active"` and `"evaluate"` pass. -/
theorem C6_enforcement_disabled_rejected :
    rsDisabled.validate "rulesets/myruleset.yaml" =
      .fail "invalid enforcement: disabled for ruleset filename myruleset.yaml" ∧
    rsDisable.validate "rulesets/myruleset.yaml" = .ok ∧
    ({ rsDisabled with
        spec := { rsDisabled.spec with enforcement := "active" } }).validate
      "rulesets/myruleset.yaml" = .ok ∧
    ({ rsDisabled with
        spec := { rsDisabled.spec with enforcement := "evaluate" } }).validate
      "rulesets/myruleset.yaml" = .ok := by
  refine ⟨?_, ?_, ?_, ?_⟩ <;> decide

/-- C7: `ReadRuleSetDirectory` returns an empty map, zero errors and
zero warnings both when the rulesets directory does not exist and when
it exists but is empty. -/
theorem C7_empty_ruleset_dir (dirname : String) :
    ReadRuleSetDirectory dirname .absent = some (emptyRSMap, [], []) ∧
    ReadRuleSetDirectory dirname (.present []) = some (emptyRSMap, [], []) :=
  ⟨rfl, rfl⟩

/-- C8: `CompareRulesetParameters` returns `false` for every rule type
other than `required_signatures`, `pull_request` and
`required_status_checks`. -/
theorem C8_unknown_ruletype_false (t : String) (l r : RuleSetParameters)
    (h1 : t ≠ "required_signatures") (h2 : t ≠ "pull_request")
    (h3 : t ≠ "required_status_checks") :
    CompareRulesetParameters t l r = false := by
  simp [CompareRulesetParameters, h1, h2, h3]

/-- C8 witness: the theorem instantiated at the unrecognized rule type
`"branch_name_pattern"`. -/
theorem C8_unknown_ruletype_false_witness :
    CompareRulesetParameters "branch_name_pattern" samplePR samplePR = false :=
  C8_unknown_ruletype_false "branch_name_pattern" samplePR samplePR
    (by decide) (by decide) (by decide)

/-- C9: `RuleSet.Validate` cannot panic when every include entry is
non-empty, and a ruleset passing all earlier checks whose include list
contains the empty string makes the sentinel check index out of range
(modelled as the `panic` outcome) instead of returning an error. -/
theorem C9_validate_include_panic :
    (∀ (r : RuleSet) (f : String), (∀ inc ∈ r.spec.onInclude, inc ≠ "") →
      r.validate f ≠ .panic) ∧
    rsEmptyInclude.validate "rulesets/myruleset.yaml" = .panic := by
  constructor
  · intro r f h
    rcases validate_shape r f with ⟨m, hm⟩ | hm
    · simp [hm]
    · rw [hm]
      exact includeCheck_no_panic _ _ h
  · decide

/-- C9 witness: the no-panic half applied to a concrete ruleset with a
non-empty include list, next to the concrete panicking input. -/
theorem C9_validate_include_panic_witness :
    rsDisable.validate "rulesets/myruleset.yaml" ≠ .panic ∧
    rsEmptyInclude.validate "rulesets/myruleset.yaml" = .panic :=
  ⟨C9_validate_include_panic.1 rsDisable "rulesets/myruleset.yaml" (by simp [rsDisable, rsDisabled]),
   C9_validate_include_panic.2⟩

/-- C5 counterexample: in the recursive team-tree walk a dot-named file
with a `.yaml` extension IS parsed — its parse outcome surfaces in the
error list — refuting "no file whose name starts with '.' is ever
parsed" for the walk. -/
theorem C5_counterexample :
    (ReadRepositories "archived" "teams" .absent
      (.present [Node.dir "T" none
        [Node.file ".x.yaml" (.error "dot file parse attempted") none]])).2.1 =
      ["dot file parse attempted"] := by
  simp [ReadRepositories, readRepositoriesPhase2, readTeamDirs, recRead, recReadEntries,
    joinPath, filepathExt, startsWithDot]

/-- C5 (amended): dot-named files are ignored by the ruleset directory
reader and by the archive phase of `ReadRepositories`, and dot-named
directories are ignored by the recursive team-tree walk; but the walk
does parse dot-named files with a `.yaml` extension. -/
theorem C5_dotfiles_skipped :
    (∀ (dirname : String) (entries : List RSEntry),
      ReadRuleSetDirectory dirname (.present entries) =
        ReadRuleSetDirectory dirname (.present (entries.filter keepRSEntry))) ∧
    (∀ (ad td : String) (entries : List Node) (teamDir : DirState Node),
      ReadRepositories ad td (.present entries) teamDir =
        ReadRepositories ad td (.present (entries.filter keepArchiveFile)) teamDir) ∧
    (∀ (a p t : String) (entries : List Node) (repos : RepoMap),
      recReadEntries a p t entries repos =
        recReadEntries a p t (entries.filter keepWalkDir) repos) := by
  refine ⟨fun dirname entries => ?_, fun ad td entries teamDir => ?_,
    recReadEntries_skip_dotdirs⟩
  · simp [ReadRuleSetDirectory, readRuleSetEntries_skip_dotfiles dirname entries]
  · simp [ReadRepositories, readArchivedEntries_skip_dotfiles ad entries]

/-- C10: a failing `ReadDir` of the team root (after a successful
existence check) or of the archive directory makes `ReadRepositories`
return a `nil` map (`none`) alongside the error — discarding any
archived repositories already accumulated — whereas a failing
existence check returns the accumulated non-`nil` map. -/
theorem C10_readdir_failure_nil_map :
    (∀ (ad td : String) (entries : List Node) (e : String),
      ReadRepositories ad td (.present entries) (.readErr e) =
        (none, (readArchivedEntries ad entries emptyRepoMap).2.1 ++ [e],
          (readArchivedEntries ad entries emptyRepoMap).2.2)) ∧
    (∀ (ad td e : String) (teamDir : DirState Node),
      ReadRepositories ad td (.readErr e) teamDir = (none, [e], [])) ∧
    (∀ (ad td e : String) (teamDir : DirState Node),
      ReadRepositories ad td (.existsErr e) teamDir = (some emptyRepoMap, [e], [])) ∧
    (∀ (ad td : String) (entries : List Node) (e : String),
      ReadRepositories ad td (.present entries) (.existsErr e) =
        (some (readArchivedEntries ad entries emptyRepoMap).1,
          (readArchivedEntries ad entries emptyRepoMap).2.1 ++ [e],
          (readArchivedEntries ad entries emptyRepoMap).2.2)) :=
  ⟨fun _ _ _ _ => rfl, fun _ _ _ _ => rfl, fun _ _ _ _ => rfl, fun _ _ _ _ => rfl⟩

/-- C2 counterexample: a repository defined both under the archive
directory and under a team directory is NOT absent from the result
map — the archived copy stays in it (exactly one error is reported). -/
theorem C2_counterexample :
    lookupRepo (ReadRepositories "archived" "teams"
        (.present [Node.file "X.yaml" (.ok ⟨"X", false⟩) none])
        (.present [Node.dir "T" none [Node.file "X.yaml" (.ok ⟨"X", false⟩) none]])) "X" =
      some ⟨"X", none, true⟩ ∧
    (ReadRepositories "archived" "teams"
        (.present [Node.file "X.yaml" (.ok ⟨"X", false⟩) none])
        (.present [Node.dir "T" none [Node.file "X.yaml" (.ok ⟨"X", false⟩) none]])).2.1.length
      = 1 := by
  constructor
  · simp [ReadRepositories, readRepositoriesPhase2, readTeamDirs, recRead, recReadEntries,
      readArchivedEntries, lookupRepo, insertRepo, joinPath, filepathExt, startsWithDot,
      hasYamlSuffix, duplicateError]
  · simp [ReadRepositories, readRepositoriesPhase2, readTeamDirs, recRead, recReadEntries,
      readArchivedEntries, lookupRepo, insertRepo, joinPath, filepathExt, startsWithDot,
      hasYamlSuffix, duplicateError]

/-- C2 (amended): defining the same repository name both under the
archive directory and under a team directory yields exactly one error —
naming the team-side file path and the archive path joined with the
bare repository name — and the team-side definition is not inserted:
the result map retains the archived repository under that name. -/
theorem C2_archive_team_collision (ad td T n fname : String) (af : Bool)
    (hdot : startsWithDot fname = false)
    (hyaml : hasYamlSuffix fname = true)
    (hext : filepathExt fname = ".yaml")
    (hteam : fname ≠ "team.yaml") :
    ReadRepositories ad td
        (.present [Node.file fname (.ok ⟨n, af⟩) none])
        (.present [Node.dir T none [Node.file fname (.ok ⟨n, af⟩) none]]) =
      (some (insertRepo emptyRepoMap n ⟨n, none, true⟩),
        ["Repository " ++ n ++ " defined in 2 places (check " ++
          joinPath (joinPath td T) fname ++ " and " ++ joinPath ad n ++ ")"],
        []) := by
  simp [ReadRepositories, readRepositoriesPhase2, readTeamDirs, recRead, recReadEntries,
    readArchivedEntries, insertRepo, duplicateError, hdot, hyaml, hext, hteam]

/-- C2 witness: the collision theorem at a concrete configuration. -/
theorem C2_archive_team_collision_witness :
    ReadRepositories "archived" "teams"
        (.present [Node.file "X.yaml" (.ok ⟨"X", false⟩) none])
        (.present [Node.dir "T" none [Node.file "X.yaml" (.ok ⟨"X", false⟩) none]]) =
      (some (insertRepo emptyRepoMap "X" ⟨"X", none, true⟩),
        ["Repository X defined in 2 places (check teams/T/X.yaml and archived/X)"], []) := by
  have h := C2_archive_team_collision "archived" "teams" "T" "X" "X.yaml" false
    (by decide) (by decide) (by decide) (by decide)
  simpa [joinPath] using h

/-- C3 witness: the theorem's concrete conjuncts instantiated. -/
theorem C3_status_checks_set_equivalence_witness :
    CompareRulesetParameters "required_status_checks"
      { samplePR with requiredStatusChecks := ["a", "b"],
                      strictRequiredStatusChecksPolicy := false }
      { samplePR with requiredStatusChecks := ["b", "a"],
                      strictRequiredStatusChecksPolicy := false } = true ∧
    CompareRulesetParameters "required_status_checks" samplePR
      { samplePR with strictRequiredStatusChecksPolicy :=
          !samplePR.strictRequiredStatusChecksPolicy } = false :=
  ⟨C3_status_checks_set_equivalence.2.1 false,
   C3_status_checks_set_equivalence.2.2 samplePR⟩

/-- C5 witness: the ruleset-reader conjunct at a concrete listing with
a dot-named file. -/
theorem C5_dotfiles_skipped_witness :
    ReadRuleSetDirectory "rulesets"
        (.present [.fileE ".hidden.yaml" (.error "should not be parsed")]) =
      ReadRuleSetDirectory "rulesets"
        (.present ([RSEntry.fileE ".hidden.yaml"
          (.error "should not be parsed")].filter keepRSEntry)) :=
  C5_dotfiles_skipped.1 "rulesets" [.fileE ".hidden.yaml" (.error "should not be parsed")]

/-- C7 witness: the theorem at a concrete directory name. -/
theorem C7_empty_ruleset_dir_witness :
    ReadRuleSetDirectory "rulesets" .absent = some (emptyRSMap, [], []) ∧
    ReadRuleSetDirectory "rulesets" (.present []) = some (emptyRSMap, [], []) :=
  C7_empty_ruleset_dir "rulesets"

/-- C10 witness: the archive-`ReadDir`-failure conjunct at concrete
arguments. -/
theorem C10_readdir_failure_nil_map_witness :
    ReadRepositories "archived" "teams" (.readErr "boom") .absent = (none, ["boom"], []) :=
  C10_readdir_failure_nil_map.2.1 "archived" "teams" "boom" .absent

end Ghost
